import Mathlib

/-!
Verification development for the vscode-rss extension.

The command layer (`App` in src/app.ts) and the AI key manager
(`AIConfigManager`) are embedded directly from the TypeScript source.
The `Collection` classes are not part of the provided sources (only their
callers in app.ts are), so their operations are modelled from the spec
(sections 3, 4.4 and 8); each such definition is marked
`Modelled from the spec:` in its doc comment.

The embedding is state-passing: each command handler maps a state to a new
state together with the list of externally visible calls (fetches, cleans,
commits) it performs, in order.
-/

namespace Rss

/-- Modelled from the spec: per-article metadata record (spec section 3,
`Abstract`; content.ts is not under the provided sources): id, title,
published date (ms), source feed URL, link, read flag, favorite flag. -/
structure Abstract where
  id : String
  title : String
  date : Int
  feed : String
  link : String
  read : Bool
  favorite : Bool
deriving DecidableEq, Repr

/-- Modelled from the spec: per-account Collection state (spec sections 3
and 4.4; collection.ts is not under the provided sources).  `feeds` is the
in-memory catalog (feed URL to its ordered Abstract list), `store` the
persisted catalog mirrored by ContentStore, `contents` the article bodies
keyed by Abstract id, `favorites` the FavoritesList of Abstract ids and
`dirty` the DirtyTracker's set of pending mutated ids. -/
structure Collection where
  feeds : List (String × List Abstract)
  store : List (String × List Abstract)
  contents : List (String × String)
  favorites : List String
  dirty : List String
deriving DecidableEq, Repr

/-- Look a feed URL up in a catalog list (JS object indexing: the keys of a
JS object are unique, so at most one entry matches). -/
def catalogL (l : List (String × List Abstract)) (url : String) : List Abstract :=
  match l.find? (fun p => p.1 == url) with
  | some p => p.2
  | none => []

/-- The in-memory catalog of one feed. -/
def Collection.catalog (c : Collection) (url : String) : List Abstract :=
  catalogL c.feeds url

/-- All Abstracts of the Collection, across every feed. -/
def allAbstracts (c : Collection) : List Abstract :=
  (c.feeds.map Prod.snd).flatten

/-- Descending order on publish dates, the order of the virtual unread feed. -/
def dateDesc (a b : Abstract) : Prop := b.date ≤ a.date

instance : DecidableRel dateDesc := fun a b => Int.decLe b.date a.date

instance : IsTotal Abstract dateDesc := ⟨fun a b => le_total b.date a.date⟩

instance : IsTrans Abstract dateDesc :=
  ⟨fun _ _ _ h₁ h₂ => le_trans h₂ h₁⟩

/-- The name of the virtual feed aggregating unread articles. -/
def unreadFeed : String := "<unread>"

/-- Modelled from the spec: `getArticles(feedURL | '<unread>')` returns the
feed's catalog; `'<unread>'` is a virtual feed aggregating unread Abstracts
across all feeds, ordered by descending publish date (spec section 4.4). -/
def Collection.getArticles (c : Collection) (feed : String) : List Abstract :=
  if feed = unreadFeed then
    List.insertionSort dateDesc ((allAbstracts c).filter (fun a => !a.read))
  else
    c.catalog feed

/-- Apply a new read/favorite state to an Abstract, keeping the upstream
fields (spec section 4.4: `updateAbstract` applies read/favorite changes). -/
def applyReadFav (n a : Abstract) : Abstract :=
  { a with read := n.read, favorite := n.favorite }

/-- Modelled from the spec: `updateAbstract(id, newState)` applies the
read/favorite change to the in-memory Abstract with that id and registers
the id with the DirtyTracker via `markMutated` (coalescing repeated calls
for the same id); spec sections 4.2 and 4.4. -/
def Collection.updateAbstract (c : Collection) (id : String) (n : Abstract) : Collection :=
  { c with
    feeds := c.feeds.map (fun p =>
      (p.1, p.2.map (fun a => if a.id == id then applyReadFav n a else a))),
    dirty := if c.dirty.contains id then c.dirty else id :: c.dirty }

/-- Modelled from the spec: Collection-level `commit()` flushes all pending
mutations to the ContentStore and clears the pending set (spec section 4.2):
the persisted catalog becomes the in-memory catalog and the DirtyTracker
empties.  The handle returned by `updateAbstract` flushes the pending
mutations immediately through the same commit. -/
def Collection.commit (c : Collection) : Collection :=
  { c with store := c.feeds, dirty := [] }

/-- Set the favorite flag of the Abstract with the given id in every catalog. -/
def Collection.setFavorite (c : Collection) (id : String) (v : Bool) : Collection :=
  { c with
    feeds := c.feeds.map (fun p =>
      (p.1, p.2.map (fun a => if a.id == id then { a with favorite := v } else a))) }

/-- Modelled from the spec: `addToFavorites(id)` maintains the FavoritesList
invariant atomically with the Abstract's favorite flag (spec section 4.4):
the flag is set and the id is inserted into the FavoritesList if absent. -/
def Collection.addToFavorites (c : Collection) (id : String) : Collection :=
  let c1 := c.setFavorite id true
  { c1 with favorites := if c1.favorites.contains id then c1.favorites
                         else id :: c1.favorites }

/-- Modelled from the spec: `removeFromFavorites(id)` clears the favorite
flag and removes the id from the FavoritesList (spec section 4.4). -/
def Collection.removeFromFavorites (c : Collection) (id : String) : Collection :=
  let c1 := c.setFavorite id false
  { c1 with favorites := c1.favorites.filter (fun j => j != id) }

/-- Modelled from the spec: `delFeed(url)` removes the Summary with its
Abstracts and contents, and favorites referencing those Abstracts are also
removed (spec section 4.4). -/
def Collection.delFeed (c : Collection) (url : String) : Collection :=
  let ids := (c.catalog url).map (fun a => a.id)
  { c with
    feeds := c.feeds.filter (fun p => p.1 != url),
    store := c.store.filter (fun p => p.1 != url),
    contents := c.contents.filter (fun p => !(ids.contains p.1)),
    favorites := c.favorites.filter (fun j => !(ids.contains j)) }

/-- An Abstract the retention sweep deletes: read, not favorite, and older
than the age threshold (its age `now - date` exceeds `maxAgeMs`).
Modelled from the spec: retention "deletes Abstracts (and their content)
older than the age threshold, except those that are unread or favorited"
(spec section 4.4). -/
def expired (maxAgeMs now : Int) (a : Abstract) : Bool :=
  a.read && !a.favorite && decide (maxAgeMs < now - a.date)

/-- Modelled from the spec: `cleanOldArticles(feedURL, maxAgeMs)` deletes
from that feed the expired Abstracts and their content bodies
(spec section 4.4).  `now` abstracts the clock. -/
def Collection.cleanOldArticles (c : Collection) (url : String) (maxAgeMs now : Int) : Collection :=
  let ids := ((c.catalog url).filter (expired maxAgeMs now)).map (fun a => a.id)
  { c with
    feeds := c.feeds.map (fun p =>
      (p.1, if p.1 == url then p.2.filter (fun a => !(expired maxAgeMs now a)) else p.2)),
    store := c.store.map (fun p =>
      (p.1, if p.1 == url then p.2.filter (fun a => !(expired maxAgeMs now a)) else p.2)),
    contents := c.contents.filter (fun p => !(ids.contains p.1)) }

/-- Modelled from the spec: `cleanAllOldArticles(maxAgeMs)` runs the same
retention sweep over every feed of the Collection (spec section 4.4). -/
def Collection.cleanAllOldArticles (c : Collection) (maxAgeMs now : Int) : Collection :=
  let ids := ((allAbstracts c).filter (expired maxAgeMs now)).map (fun a => a.id)
  { c with
    feeds := c.feeds.map (fun p => (p.1, p.2.filter (fun a => !(expired maxAgeMs now a)))),
    store := c.store.map (fun p => (p.1, p.2.filter (fun a => !(expired maxAgeMs now a)))),
    contents := c.contents.filter (fun p => !(ids.contains p.1)) }

/-- Externally visible calls a Collection-level command performs, in order:
an `updateAbstract` registration, a handle-level immediate flush, or a
Collection-level `commit()`. -/
inductive CEvent where
  | update (id : String)
  | commitHandle (id : String)
  | commitAll
deriving DecidableEq, Repr

/-- Embedded from src/app.ts, rss_mark_read: the article's abstract gets
`read = true` and is registered through `updateAbstract(abstract.id,
abstract)`, whose returned handle is committed immediately. -/
def rss_mark_read (c : Collection) (a : Abstract) : Collection × List CEvent :=
  let a1 := { a with read := true }
  ((c.updateAbstract a.id a1).commit,
   [CEvent.update a.id, CEvent.commitHandle a.id])

/-- The update fold of rss_mark_all_read: every listed abstract gets
`read = true` and is registered via `updateAbstract`, with no commit yet. -/
def markAllRead (c : Collection) (l : List Abstract) : Collection :=
  l.foldl (fun acc a => acc.updateAbstract a.id { a with read := true }) c

/-- Embedded from src/app.ts, rss_mark_all_read: every Abstract of the
target feed gets `read = true` and is registered via `updateAbstract`;
Collection-level `commit()` is called exactly once, after the loop. -/
def rss_mark_all_read (c : Collection) (feed : String) : Collection × List CEvent :=
  let abstracts := c.getArticles feed
  ((markAllRead c abstracts).commit,
   (abstracts.map (fun a => CEvent.update a.id)) ++ [CEvent.commitAll])

/-- Externally visible calls of an App-level command: `fetchAll` on one
account's collection, `fetchOne` of a feed on one account's collection, or
`clean()` of one account's collection. -/
inductive Event where
  | fetchAll (key : String)
  | fetchOne (key : String) (url : String)
  | clean (key : String)
deriving DecidableEq, Repr

/-- The App state embedded from src/app.ts: the selected account and feed,
the global `updating` guard, the live collections map (unique JS object
keys) and the accounts configuration.  Handlers are modelled
run-to-completion; a state with `updating = true` is the state observed
while a refresh is in flight (between the guard being set and cleared). -/
structure AppState where
  current_account : Option String
  current_feed : Option String
  updating : Bool
  collections : List (String × Collection)
  accounts : List String
deriving DecidableEq, Repr

/-- JS `this.collections[key]`: indexing the collections map may miss. -/
def lookupCollection (s : AppState) (key : String) : Option Collection :=
  (s.collections.find? (fun p => p.1 == key)).map Prod.snd

/-- Embedded from src/app.ts, currCollection: indexes the collections map
with the current account (`undefined` when there is none). -/
def currCollection (s : AppState) : Option Collection :=
  s.current_account.bind (lookupCollection s)

/-- Embedded from src/app.ts, currArticles: with no feed selected the
handler returns the empty list before touching any Collection; otherwise it
asks the current Collection for the selected feed's articles. -/
def currArticles (s : AppState) : List Abstract :=
  match s.current_feed with
  | none => []
  | some feed =>
    match currCollection s with
    | some c => c.getArticles feed
    | none => []

/-- Embedded from src/app.ts, rss_select: switches the current account and
resets the selected feed to `undefined`. -/
def rss_select (s : AppState) (account : String) : AppState :=
  { s with current_account := some account, current_feed := none }

/-- Embedded from src/app.ts, rss_refresh(auto): when the global `updating`
guard is set the handler returns at once; otherwise it sets the guard, runs
`fetchAll(true)` on every collection (Promise.all) and clears the guard.
The `auto` argument only selects the progress-notification location. -/
def rss_refresh (s : AppState) (auto : Bool) : AppState × List Event :=
  if s.updating then (s, [])
  else (s, s.collections.map (fun p => Event.fetchAll p.1))

/-- Embedded from src/app.ts, rss_refresh_account(account?): when the global
`updating` guard is set the handler returns at once; otherwise it runs
`fetchAll(true)` on the given account's collection (the current one when the
argument is absent).  Resolving a missing key would make the TypeScript call
throw; the event names the collection whose fetchAll is invoked. -/
def rss_refresh_account (s : AppState) (account : Option String) : AppState × List Event :=
  if s.updating then (s, [])
  else
    match (match account with | some k => some k | none => s.current_account) with
    | some k => (s, [Event.fetchAll k])
    | none => (s, [])

/-- Embedded from src/app.ts, rss_refresh_one(feed?): when the global
`updating` guard is set the handler returns at once; with no resolvable feed
URL it also returns; otherwise it runs `fetchOne(url, true)` on the current
collection. -/
def rss_refresh_one (s : AppState) (feed : Option String) : AppState × List Event :=
  if s.updating then (s, [])
  else
    match (match feed with | some f => some f | none => s.current_feed) with
    | none => (s, [])
    | some url =>
      match s.current_account with
      | some k => (s, [Event.fetchOne k url])
      | none => (s, [])

/-- Embedded from src/app.ts, removeAccount(key): with no registered
collection under the key the handler returns at once; otherwise it calls the
collection's `clean()`, deletes the key from the collections map, and
deletes the account's entry from the accounts configuration. -/
def removeAccount (s : AppState) (key : String) : AppState × List Event :=
  match s.collections.find? (fun p => p.1 == key) with
  | none => (s, [])
  | some _ =>
    ({ s with
        collections := s.collections.filter (fun p => p.1 != key),
        accounts := s.accounts.filter (fun k => k != key) },
     [Event.clean key])

/-- The AI configuration state embedded from AIConfigManager: the
SecretStorage entry under rss.ai-brief-api-key and the settings.json value
of the same key. -/
structure AIState where
  secret : Option String
  settingsKey : Option String
deriving DecidableEq, Repr

/-- JS String.prototype.trim: drop leading and trailing whitespace
(executable model of String.trim over the character list). -/
def trimStr (s : String) : String :=
  ⟨((s.data.dropWhile Char.isWhitespace).reverse.dropWhile Char.isWhitespace).reverse⟩

/-- The blank test of AIConfigManager: JS `!apiKey || apiKey.trim() === ''`
(an empty string is falsy and trims to the empty string, so the test is
equivalent to the trimmed string being empty). -/
def blank (s : String) : Bool := trimStr s == ""

/-- Embedded from AIConfigManager.deleteApiKey: removes the secret. -/
def deleteApiKey (st : AIState) : AIState := { st with secret := none }

/-- Embedded from AIConfigManager.setApiKey: a blank key deletes the stored
secret instead of being stored; a non-blank key is stored. -/
def setApiKey (st : AIState) (apiKey : String) : AIState :=
  if blank apiKey then deleteApiKey st
  else { st with secret := some apiKey }

/-- Embedded from AIConfigManager.getApiKey, fallback branch: a non-blank
settings value is migrated to SecretStorage via setApiKey, cleared from the
settings (set to the empty string) and returned; otherwise undefined. -/
def getApiKeyFallback (st : AIState) : Option String × AIState :=
  match st.settingsKey with
  | some k =>
    if !(blank k) then
      (some k, { setApiKey st k with settingsKey := some "" })
    else (none, st)
  | none => (none, st)

/-- Embedded from AIConfigManager.getApiKey: a non-blank SecretStorage value
is returned as is; otherwise the settings fallback runs. -/
def getApiKey (st : AIState) : Option String × AIState :=
  match st.secret with
  | some k => if !(blank k) then (some k, st) else getApiKeyFallback st
  | none => getApiKeyFallback st

/-- The FavoritesList invariant (spec sections 3 and 8): an id is a member
of the FavoritesList exactly when some Abstract of the Collection carries it
with `favorite = true`. -/
def FavInv (c : Collection) : Prop :=
  ∀ j : String, j ∈ c.favorites ↔ ∃ a ∈ allAbstracts c, a.id = j ∧ a.favorite = true

/-- Ownership wellformedness (spec section 3: an Abstract is owned by
exactly one Summary's catalog): two Abstracts of the Collection with the
same id are the same Abstract in the same feed entry. -/
def OwnedOnce (c : Collection) : Prop :=
  ∀ p ∈ c.feeds, ∀ q ∈ c.feeds, ∀ a ∈ p.2, ∀ b ∈ q.2, a.id = b.id → p = q ∧ a = b

instance (c : Collection) : Decidable (OwnedOnce c) := by
  unfold OwnedOnce
  infer_instance

/-- Feed URLs are unique in the catalog list (JS object keys are unique). -/
def feedKeysNodup (c : Collection) : Prop :=
  (c.feeds.map Prod.fst).Nodup

instance (c : Collection) : Decidable (feedKeysNodup c) := by
  unfold feedKeysNodup
  infer_instance

/-- Sample feed URL used by the concrete scenarios. -/
def feedF : String := "https://example.org/feed"

/-- Sample unread article A, newest. -/
def absA : Abstract :=
  { id := "a", title := "A", date := 2, feed := feedF,
    link := "https://example.org/a", read := false, favorite := false }

/-- Sample unread article B, older than A. -/
def absB : Abstract :=
  { id := "b", title := "B", date := 1, feed := feedF,
    link := "https://example.org/b", read := false, favorite := false }

/-- Sample read, non-favorite, very old article. -/
def absOld : Abstract :=
  { id := "c", title := "C", date := 0, feed := feedF,
    link := "https://example.org/c", read := true, favorite := false }

/-- Sample read, favorited, very old article. -/
def absFav : Abstract :=
  { id := "d", title := "D", date := 0, feed := feedF,
    link := "https://example.org/d", read := true, favorite := true }

/-- Sample collection with one feed holding the four sample articles. -/
def sampleCollection : Collection :=
  { feeds := [(feedF, [absA, absB, absOld, absFav])],
    store := [(feedF, [absA, absB, absOld, absFav])],
    contents := [("a", "xa"), ("b", "xb"), ("c", "xc"), ("d", "xd")],
    favorites := ["d"],
    dirty := [] }

/-- Sample collection with exactly two unread items A and B. -/
def twoUnread : Collection :=
  { feeds := [(feedF, [absA, absB])],
    store := [(feedF, [absA, absB])],
    contents := [("a", "xa"), ("b", "xb")],
    favorites := [],
    dirty := [] }

/-- Sample idle App state with two accounts. -/
def sampleApp : AppState :=
  { current_account := some "acct1",
    current_feed := some feedF,
    updating := false,
    collections := [("acct1", sampleCollection), ("acct2", twoUnread)],
    accounts := ["acct1", "acct2"] }

/-- Sample App state observed while a refresh is in flight (the global
guard is set). -/
def busyApp : AppState := { sampleApp with updating := true }

/-- Sample AI configuration state holding a stored secret. -/
def sampleAI : AIState := { secret := some "sk-live", settingsKey := some "  " }

/-- The effect of one rss_mark_all_read loop iteration for abstract `a` on a
catalog entry `e`, as performed by `Collection.updateAbstract`. -/
def stepRead (e a : Abstract) : Abstract :=
  if e.id == a.id then applyReadFav { a with read := true } e else e

/-! ### Helper lemmas -/

theorem mem_catalogL {l : List (String × List Abstract)} {url : String} {a : Abstract} :
    a ∈ catalogL l url ↔ ∃ p, l.find? (fun p => p.1 == url) = some p ∧ a ∈ p.2 := by
  unfold catalogL
  cases h : l.find? (fun p => p.1 == url) with
  | none => simp [h]
  | some p => simp [h]

theorem catalogL_map (l : List (String × List Abstract))
    (g : String → List Abstract → List Abstract) (url : String) :
    catalogL (l.map (fun p => (p.1, g p.1 p.2))) url =
      (match l.find? (fun p => p.1 == url) with
       | some p => g p.1 p.2
       | none => []) := by
  induction l with
  | nil => rfl
  | cons p t ih =>
    unfold catalogL at ih ⊢
    simp only [List.map_cons, List.find?]
    cases h : (p.1 == url) with
    | true => rfl
    | false => exact ih

theorem mem_allAbstracts {c : Collection} {a : Abstract} :
    a ∈ allAbstracts c ↔ ∃ p ∈ c.feeds, a ∈ p.2 := by
  unfold allAbstracts
  simp only [List.mem_flatten, List.mem_map]
  constructor
  · rintro ⟨l, ⟨u, hu, hl⟩, hx⟩
    exact ⟨u, hu, hl ▸ hx⟩
  · rintro ⟨u, hu, hx⟩
    exact ⟨u.2, ⟨u, hu, rfl⟩, hx⟩

theorem flattenSnd_map (l : List (String × List Abstract)) (f : Abstract → Abstract) :
    ((l.map (fun p => (p.1, p.2.map f))).map Prod.snd).flatten
      = ((l.map Prod.snd).flatten).map f := by
  rw [List.map_flatten, List.map_map, List.map_map]
  rfl

theorem find?_filter_of_key (l : List (String × String)) (q : String × String → Bool)
    (k : String) (h : ∀ p ∈ l, p.1 = k → q p = true) :
    (l.filter q).find? (fun p => p.1 == k) = l.find? (fun p => p.1 == k) := by
  induction l with
  | nil => rfl
  | cons p t ih =>
    have ht : ∀ r ∈ t, r.1 = k → q r = true := fun r hr => h r (List.mem_cons_of_mem _ hr)
    cases hq : q p with
    | true =>
      rw [List.filter_cons_of_pos hq]
      simp only [List.find?]
      cases hk : (p.1 == k) with
      | true => rfl
      | false => exact ih ht
    | false =>
      rw [List.filter_cons_of_neg (by simp [hq])]
      have hk : (p.1 == k) = false := by
        cases hkk : (p.1 == k) with
        | false => rfl
        | true =>
          have := h p (List.mem_cons_self _ _) (by simpa using hkk)
          simp [this] at hq
      simp only [List.find?, hk]
      exact ih ht

theorem catalog_updateAbstract (c : Collection) (id : String) (n : Abstract) (u : String) :
    (c.updateAbstract id n).catalog u =
      (c.catalog u).map (fun a => if a.id == id then applyReadFav n a else a) := by
  unfold Collection.updateAbstract Collection.catalog
  show catalogL (c.feeds.map (fun p =>
    (p.1, p.2.map (fun a => if a.id == id then applyReadFav n a else a)))) u = _
  rw [catalogL_map c.feeds
    (fun _ x => x.map (fun a => if a.id == id then applyReadFav n a else a)) u]
  unfold catalogL
  cases c.feeds.find? (fun p => p.1 == u) <;> rfl

theorem allAbstracts_updateAbstract (c : Collection) (id : String) (n : Abstract) :
    allAbstracts (c.updateAbstract id n) =
      (allAbstracts c).map (fun a => if a.id == id then applyReadFav n a else a) := by
  unfold Collection.updateAbstract allAbstracts
  exact flattenSnd_map _ _

theorem allAbstracts_setFavorite (c : Collection) (id : String) (v : Bool) :
    allAbstracts (c.setFavorite id v) =
      (allAbstracts c).map (fun a => if a.id == id then { a with favorite := v } else a) := by
  unfold Collection.setFavorite allAbstracts
  exact flattenSnd_map _ _

theorem catalog_cleanOld (c : Collection) (url u : String) (maxAgeMs now : Int) :
    (c.cleanOldArticles url maxAgeMs now).catalog u =
      (match c.feeds.find? (fun p => p.1 == u) with
       | some p => if p.1 == url then p.2.filter (fun a => !(expired maxAgeMs now a)) else p.2
       | none => []) := by
  unfold Collection.cleanOldArticles Collection.catalog
  show catalogL (c.feeds.map (fun p =>
    (p.1, if p.1 == url then p.2.filter (fun a => !(expired maxAgeMs now a)) else p.2))) u = _
  exact catalogL_map c.feeds
    (fun u' x => if u' == url then x.filter (fun a => !(expired maxAgeMs now a)) else x) u

theorem catalog_cleanAll (c : Collection) (u : String) (maxAgeMs now : Int) :
    (c.cleanAllOldArticles maxAgeMs now).catalog u =
      (match c.feeds.find? (fun p => p.1 == u) with
       | some p => p.2.filter (fun a => !(expired maxAgeMs now a))
       | none => []) := by
  unfold Collection.cleanAllOldArticles Collection.catalog
  show catalogL (c.feeds.map (fun p =>
    (p.1, p.2.filter (fun a => !(expired maxAgeMs now a))))) u = _
  exact catalogL_map c.feeds (fun _ x => x.filter (fun a => !(expired maxAgeMs now a))) u

theorem find?_key_of_nodup (l : List (String × List Abstract))
    (hnd : (l.map Prod.fst).Nodup) (p : String × List Abstract) (hp : p ∈ l) :
    l.find? (fun q => q.1 == p.1) = some p := by
  induction l with
  | nil => cases hp
  | cons r t ih =>
    have hnd' : (t.map Prod.fst).Nodup := (List.nodup_cons.mp (by simpa using hnd)).2
    rcases List.mem_cons.mp hp with rfl | hpt
    · have h : (p.1 == p.1) = true := by simp
      simp [List.find?, h]
    · have hr : r.1 ∉ t.map Prod.fst := (List.nodup_cons.mp (by simpa using hnd)).1
      have hne : (r.1 == p.1) = false := by
        cases hb : (r.1 == p.1) with
        | false => rfl
        | true =>
          exact absurd (List.mem_map_of_mem Prod.fst hpt)
            (by rw [show r.1 = p.1 by simpa using hb] at hr; exact hr)
      simp only [List.find?, hne]
      exact ih hnd' hpt

theorem mem_insertIfAbsent (l : List String) (id j : String) :
    j ∈ (if l.contains id then l else id :: l) ↔ j = id ∨ j ∈ l := by
  by_cases h : l.contains id
  · rw [if_pos h]
    constructor
    · exact Or.inr
    · rintro (rfl | hj)
      · simpa using h
      · exact hj
  · rw [if_neg h, List.mem_cons]

theorem foldl_stepRead_id (l : List Abstract) (e : Abstract) :
    (l.foldl stepRead e).id = e.id := by
  induction l generalizing e with
  | nil => rfl
  | cons a t ih =>
    rw [List.foldl_cons, ih]
    unfold stepRead applyReadFav
    cases h : (e.id == a.id) <;> simp

theorem foldl_stepRead_read_of_read (l : List Abstract) (e : Abstract)
    (h : e.read = true) : (l.foldl stepRead e).read = true := by
  induction l generalizing e with
  | nil => exact h
  | cons a t ih =>
    rw [List.foldl_cons]
    apply ih
    unfold stepRead applyReadFav
    cases hb : (e.id == a.id) <;> simp [h]

theorem foldl_stepRead_read (l : List Abstract) (e : Abstract)
    (h : e.id ∈ l.map (fun a => a.id)) : (l.foldl stepRead e).read = true := by
  induction l generalizing e with
  | nil => simp at h
  | cons a t ih =>
    rw [List.foldl_cons]
    by_cases hid : e.id = a.id
    · apply foldl_stepRead_read_of_read
      show (stepRead e a).read = true
      simp [stepRead, hid, applyReadFav]
    · have hse : stepRead e a = e := by simp [stepRead, hid]
      rw [hse]
      apply ih
      simp only [List.map_cons, List.mem_cons] at h
      rcases h with heq | hmem
      · exact absurd heq hid
      · exact hmem

theorem catalog_markAllRead (c : Collection) (l : List Abstract) (u : String) :
    (markAllRead c l).catalog u = (c.catalog u).map (fun e => l.foldl stepRead e) := by
  induction l generalizing c with
  | nil =>
    unfold markAllRead
    simp
  | cons a t ih =>
    unfold markAllRead at ih ⊢
    rw [List.foldl_cons, ih, catalog_updateAbstract, List.map_map]
    congr 1

/-! ### Claim theorems -/

/-- C2: whenever the `updating` guard is set, rss_refresh,
rss_refresh_account and rss_refresh_one all return immediately with the
state unchanged and without invoking fetchAll or fetchOne, so a refresh
request arriving while one is in flight is ignored, not queued. -/
theorem refresh_guard (s : AppState) (auto : Bool) (account : Option String)
    (feed : Option String) (h : s.updating = true) :
    rss_refresh s auto = (s, []) ∧ rss_refresh_account s account = (s, []) ∧
      rss_refresh_one s feed = (s, []) := by
  unfold rss_refresh rss_refresh_account rss_refresh_one
  simp [h]

theorem refresh_guard_witness :
    busyApp.updating = true ∧
      (rss_refresh busyApp true = (busyApp, []) ∧
        rss_refresh_account busyApp (some "acct2") = (busyApp, []) ∧
        rss_refresh_one busyApp (some feedF) = (busyApp, [])) :=
  ⟨rfl, refresh_guard busyApp true (some "acct2") (some feedF) rfl⟩

/-- C3 counterexample: with a refresh in flight (global guard set by the
other account's refresh), the request to refresh account acct2 — whose
collection is registered — performs no fetchAll at all, so the claim that
another account's in-flight refresh never causes a request to be dropped is
false. -/
theorem cross_account_refresh_dropped :
    busyApp.updating = true ∧
      lookupCollection busyApp "acct2" ≠ none ∧
      Event.fetchAll "acct2" ∉ (rss_refresh_account busyApp (some "acct2")).2 := by
  refine ⟨rfl, by decide, ?_⟩
  intro h
  simp [rss_refresh_account, busyApp, sampleApp] at h

/-- C3 (amended): the `updating` guard is global, not per-account: while any
refresh is in flight, a refresh request for any account — including one
whose collection is not being refreshed — is dropped with no fetchAll;
distinct accounts are refreshed together only by a single rss_refresh, which
invokes fetchAll on every registered collection in one batch. -/
theorem refresh_guard_is_global (s : AppState) (account : Option String) :
    (s.updating = true → rss_refresh_account s account = (s, [])) ∧
      (s.updating = false →
        (rss_refresh s true).2 = s.collections.map (fun p => Event.fetchAll p.1)) := by
  constructor
  · intro h
    unfold rss_refresh_account
    simp [h]
  · intro h
    unfold rss_refresh
    simp [h]

theorem refresh_guard_is_global_witness :
    rss_refresh_account busyApp (some "acct2") = (busyApp, []) ∧
      (rss_refresh sampleApp true).2 =
        sampleApp.collections.map (fun p => Event.fetchAll p.1) :=
  ⟨(refresh_guard_is_global busyApp (some "acct2")).1 rfl,
   (refresh_guard_is_global sampleApp (some "acct2")).2 rfl⟩

/-- C7: removing an account whose collection is registered invokes the
collection's clean(), removes the collection from the live collections map,
and deletes the account's entry from the accounts configuration. -/
theorem removeAccount_teardown (s : AppState) (key : String) (q : String × Collection)
    (h : s.collections.find? (fun p => p.1 == key) = some q) :
    (removeAccount s key).2 = [Event.clean key] ∧
      (∀ p ∈ (removeAccount s key).1.collections, p.1 ≠ key) ∧
      key ∉ (removeAccount s key).1.accounts := by
  unfold removeAccount
  rw [h]
  refine ⟨rfl, ?_, ?_⟩
  · intro p hp
    have := (List.mem_filter.mp hp).2
    simpa using this
  · intro hk
    have := (List.mem_filter.mp hk).2
    simp at this

theorem removeAccount_teardown_witness :
    sampleApp.collections.find? (fun p => p.1 == "acct2") = some ("acct2", twoUnread) ∧
      ((removeAccount sampleApp "acct2").2 = [Event.clean "acct2"] ∧
        (∀ p ∈ (removeAccount sampleApp "acct2").1.collections, p.1 ≠ "acct2") ∧
        "acct2" ∉ (removeAccount sampleApp "acct2").1.accounts) :=
  ⟨by decide, removeAccount_teardown sampleApp "acct2" ("acct2", twoUnread) (by decide)⟩

/-- C9: removing an account under a key with no registered collection is a
no-op: the handler returns with the state unchanged and without calling
clean(). -/
theorem removeAccount_missing_noop (s : AppState) (key : String)
    (h : s.collections.find? (fun p => p.1 == key) = none) :
    removeAccount s key = (s, []) := by
  unfold removeAccount
  rw [h]

theorem removeAccount_missing_noop_witness :
    sampleApp.collections.find? (fun p => p.1 == "missing") = none ∧
      removeAccount sampleApp "missing" = (sampleApp, []) :=
  ⟨by decide, removeAccount_missing_noop sampleApp "missing" (by decide)⟩

/-- C8: with no feed selected, currArticles returns the empty list without
consulting any Collection, and rss_select leaves exactly that state: right
after switching accounts the selected feed is `undefined` and currArticles
is empty. -/
theorem currArticles_no_feed (s : AppState) (account : String) :
    (s.current_feed = none → currArticles s = []) ∧
      (rss_select s account).current_feed = none ∧
      currArticles (rss_select s account) = [] := by
  refine ⟨?_, rfl, rfl⟩
  intro h
  unfold currArticles
  rw [h]

theorem currArticles_no_feed_witness :
    currArticles { sampleApp with current_feed := none } = [] ∧
      currArticles (rss_select sampleApp "acct2") = [] :=
  ⟨(currArticles_no_feed { sampleApp with current_feed := none } "acct2").1 rfl,
   (currArticles_no_feed sampleApp "acct2").2.2⟩

/-- C10: setApiKey called with a blank (empty or whitespace-only) key
deletes the stored secret instead of storing it; after any setApiKey the
stored secret is absent or non-blank; and getApiKey returns either
undefined or a key that is non-empty after trimming. -/
theorem ai_key_never_blank (st : AIState) (apiKey : String) :
    (trimStr apiKey = "" → (setApiKey st apiKey).secret = none) ∧
      ((setApiKey st apiKey).secret = none ∨
        ∃ k, (setApiKey st apiKey).secret = some k ∧ trimStr k ≠ "") ∧
      ((getApiKey st).1 = none ∨ ∃ k, (getApiKey st).1 = some k ∧ trimStr k ≠ "") := by
  refine ⟨?_, ?_, ?_⟩
  · intro h
    unfold setApiKey deleteApiKey blank
    simp [h]
  · unfold setApiKey deleteApiKey blank
    by_cases h : trimStr apiKey = ""
    · simp [h]
    · simp [h]
  · unfold getApiKey getApiKeyFallback setApiKey deleteApiKey blank
    cases hs : st.secret with
    | some k =>
      by_cases h : trimStr k = ""
      · cases hk : st.settingsKey with
        | some k2 =>
          by_cases h2 : trimStr k2 = ""
          · simp [h, h2]
          · simp [h, h2]
        | none => simp [h]
      · simp [h]
    | none =>
      cases hk : st.settingsKey with
      | some k2 =>
        by_cases h2 : trimStr k2 = ""
        · simp [h2]
        · simp [h2]
      | none => simp

theorem ai_key_never_blank_witness :
    (trimStr "  " = "" ∧ (setApiKey sampleAI "  ").secret = none) ∧
      ((getApiKey sampleAI).1 = none ∨
        ∃ k, (getApiKey sampleAI).1 = some k ∧ trimStr k ≠ "") :=
  ⟨⟨by decide, (ai_key_never_blank sampleAI "  ").1 (by decide)⟩,
   (ai_key_never_blank sampleAI "  ").2.2⟩

/-- C5: getArticles on the virtual unread feed returns exactly the
Abstracts with read = false aggregated across all feeds, ordered by
descending publish date; in particular, after a feed with two unread items
A and B has A marked read, it returns exactly [B]. -/
theorem getArticles_unread_spec (c : Collection) (x : Abstract) :
    (x ∈ c.getArticles unreadFeed ↔ x ∈ allAbstracts c ∧ x.read = false) ∧
      List.Sorted dateDesc (c.getArticles unreadFeed) ∧
      (rss_mark_read twoUnread absA).1.getArticles unreadFeed = [absB] := by
  refine ⟨?_, ?_, by decide⟩
  · unfold Collection.getArticles
    rw [if_pos rfl, (List.perm_insertionSort dateDesc _).mem_iff]
    simp [List.mem_filter]
  · unfold Collection.getArticles
    rw [if_pos rfl]
    exact List.sorted_insertionSort dateDesc _

/-- C4: the single-article path (rss_mark_read) applies the read change to
the in-memory Abstract, registers it via updateAbstract and flushes the
mutation immediately (the store equals the updated catalog and the
DirtyTracker is empty afterwards); the batched path (rss_mark_all_read)
sets every Abstract of the target feed to read = true, registers each via
updateAbstract, and calls Collection-level commit() exactly once, after all
the updates. -/
theorem updateAbstract_commit_paths (c : Collection) (a : Abstract) (f : String)
    (hf : f ≠ unreadFeed) :
    (∀ u : String, ∀ e ∈ (rss_mark_read c a).1.catalog u, e.id = a.id → e.read = true) ∧
      (rss_mark_read c a).1.store = (rss_mark_read c a).1.feeds ∧
      (rss_mark_read c a).1.dirty = [] ∧
      (rss_mark_read c a).2 = [CEvent.update a.id, CEvent.commitHandle a.id] ∧
      (∀ e ∈ (rss_mark_all_read c f).1.catalog f, e.read = true) ∧
      (rss_mark_all_read c f).2 =
        ((c.catalog f).map (fun x => CEvent.update x.id)) ++ [CEvent.commitAll] ∧
      (rss_mark_all_read c f).2.count CEvent.commitAll = 1 ∧
      (rss_mark_all_read c f).2.getLast? = some CEvent.commitAll ∧
      (rss_mark_all_read c f).1.store = (rss_mark_all_read c f).1.feeds ∧
      (rss_mark_all_read c f).1.dirty = [] := by
  have hget : c.getArticles f = c.catalog f := by
    unfold Collection.getArticles
    rw [if_neg hf]
  refine ⟨?_, rfl, rfl, rfl, ?_, ?_, ?_, ?_, rfl, rfl⟩
  · intro u e he hid
    have hcat : (rss_mark_read c a).1.catalog u =
        (c.catalog u).map
          (fun x => if x.id == a.id then applyReadFav { a with read := true } x else x) := by
      show ((c.updateAbstract a.id { a with read := true }).commit).catalog u = _
      have : ((c.updateAbstract a.id { a with read := true }).commit).catalog u =
          (c.updateAbstract a.id { a with read := true }).catalog u := rfl
      rw [this, catalog_updateAbstract]
    rw [hcat] at he
    obtain ⟨e0, he0, rfl⟩ := List.mem_map.mp he
    cases hb : (e0.id == a.id) with
    | true => simp [hb, applyReadFav]
    | false =>
      rw [if_neg (by simp [hb])] at hid ⊢
      exact absurd hid (by simpa using hb)
  · intro e he
    have hcat : (rss_mark_all_read c f).1.catalog f =
        (c.catalog f).map (fun e => (c.catalog f).foldl stepRead e) := by
      show ((markAllRead c (c.getArticles f)).commit).catalog f = _
      have : ((markAllRead c (c.getArticles f)).commit).catalog f =
          (markAllRead c (c.getArticles f)).catalog f := rfl
      rw [this, hget, catalog_markAllRead]
    rw [hcat] at he
    obtain ⟨e0, he0, rfl⟩ := List.mem_map.mp he
    exact foldl_stepRead_read _ _ (List.mem_map_of_mem (fun a => a.id) he0)
  · show (c.getArticles f).map (fun x => CEvent.update x.id) ++ [CEvent.commitAll] = _
    rw [hget]
  · show ((c.getArticles f).map (fun x => CEvent.update x.id) ++ [CEvent.commitAll]).count
      CEvent.commitAll = 1
    rw [List.count_append]
    have : ((c.getArticles f).map (fun x => CEvent.update x.id)).count CEvent.commitAll = 0 := by
      rw [List.count_eq_zero]
      intro hmem
      obtain ⟨x, _, hx⟩ := List.mem_map.mp hmem
      cases hx
    rw [this]
    rfl
  · show ((c.getArticles f).map (fun x => CEvent.update x.id) ++ [CEvent.commitAll]).getLast?
      = some CEvent.commitAll
    rw [List.getLast?_concat]

theorem updateAbstract_commit_paths_witness :
    feedF ≠ unreadFeed ∧
      ((rss_mark_all_read twoUnread feedF).2.count CEvent.commitAll = 1 ∧
        (rss_mark_all_read twoUnread feedF).2.getLast? = some CEvent.commitAll) ∧
      (∀ e ∈ (rss_mark_all_read twoUnread feedF).1.catalog feedF, e.read = true) :=
  ⟨by decide,
   ⟨(updateAbstract_commit_paths twoUnread absA feedF (by decide)).2.2.2.2.2.2.1,
    (updateAbstract_commit_paths twoUnread absA feedF (by decide)).2.2.2.2.2.2.2.1⟩,
   (updateAbstract_commit_paths twoUnread absA feedF (by decide)).2.2.2.2.1⟩

/-- C1: retention safety. An unread or favorited Abstract survives both
cleanOldArticles and cleanAllOldArticles regardless of age, and its content
body is untouched; conversely any Abstract that is unread, favorited or not
older than the threshold survives — only read, non-favorite Abstracts older
than the threshold are deleted. -/
theorem retention_safety (c : Collection) (url u : String) (maxAgeMs now : Int)
    (a : Abstract) (hown : OwnedOnce c) (hmem : a ∈ c.catalog u)
    (hkeep : a.read = false ∨ a.favorite = true) :
    a ∈ (c.cleanOldArticles url maxAgeMs now).catalog u ∧
      a ∈ (c.cleanAllOldArticles maxAgeMs now).catalog u ∧
      (c.cleanOldArticles url maxAgeMs now).contents.find? (fun p => p.1 == a.id)
        = c.contents.find? (fun p => p.1 == a.id) ∧
      (c.cleanAllOldArticles maxAgeMs now).contents.find? (fun p => p.1 == a.id)
        = c.contents.find? (fun p => p.1 == a.id) ∧
      (∀ b ∈ c.catalog u, expired maxAgeMs now b = false →
        b ∈ (c.cleanOldArticles url maxAgeMs now).catalog u ∧
        b ∈ (c.cleanAllOldArticles maxAgeMs now).catalog u) := by
  have hexp : expired maxAgeMs now a = false := by
    unfold expired
    rcases hkeep with h | h <;> simp [h]
  obtain ⟨p, hfind, hap⟩ := mem_catalogL.mp hmem
  have hpmem : p ∈ c.feeds := List.mem_of_find?_eq_some hfind
  have hsurv : ∀ b ∈ c.catalog u, expired maxAgeMs now b = false →
      b ∈ (c.cleanOldArticles url maxAgeMs now).catalog u ∧
      b ∈ (c.cleanAllOldArticles maxAgeMs now).catalog u := by
    intro b hb hbexp
    obtain ⟨p', hfind', hbp⟩ := mem_catalogL.mp hb
    rw [hfind] at hfind'
    cases hfind'
    constructor
    · rw [catalog_cleanOld, hfind]
      dsimp only
      cases hpu : (p.1 == url) with
      | true =>
        rw [if_pos rfl]
        exact List.mem_filter.mpr ⟨hbp, by simp [hbexp]⟩
      | false =>
        rw [if_neg (by simp)]
        exact hbp
    · rw [catalog_cleanAll, hfind]
      dsimp only
      exact List.mem_filter.mpr ⟨hbp, by simp [hbexp]⟩
  have hsame : ∀ b : Abstract, b ∈ allAbstracts c → expired maxAgeMs now b = true →
      b.id ≠ a.id := by
    intro b hb hbexp heq
    obtain ⟨q, hq, hbq⟩ := mem_allAbstracts.mp hb
    obtain ⟨-, rfl⟩ := hown q hq p hpmem b hbq a hap heq
    rw [hexp] at hbexp
    cases hbexp
  refine ⟨(hsurv a hmem hexp).1, (hsurv a hmem hexp).2, ?_, ?_, hsurv⟩
  · show (c.contents.filter (fun p =>
      !((((c.catalog url).filter (expired maxAgeMs now)).map (fun a => a.id)).contains p.1))).find?
        (fun p => p.1 == a.id) = _
    apply find?_filter_of_key
    intro r _ hr
    have : ¬ a.id ∈ ((c.catalog url).filter (expired maxAgeMs now)).map (fun a => a.id) := by
      intro hin
      obtain ⟨b, hbmem, hbid⟩ := List.mem_map.mp hin
      have hbfilter := List.mem_filter.mp hbmem
      have hball : b ∈ allAbstracts c := by
        obtain ⟨q, hfq, hbq⟩ := mem_catalogL.mp hbfilter.1
        exact mem_allAbstracts.mpr ⟨q, List.mem_of_find?_eq_some hfq, hbq⟩
      exact hsame b hball hbfilter.2 hbid
    rw [hr]
    simp [this]
  · show (c.contents.filter (fun p =>
      !(((allAbstracts c).filter (expired maxAgeMs now)).map (fun a => a.id)).contains p.1)).find?
        (fun p => p.1 == a.id) = _
    apply find?_filter_of_key
    intro r _ hr
    have : ¬ a.id ∈ ((allAbstracts c).filter (expired maxAgeMs now)).map (fun a => a.id) := by
      intro hin
      obtain ⟨b, hbmem, hbid⟩ := List.mem_map.mp hin
      have hbfilter := List.mem_filter.mp hbmem
      exact hsame b hbfilter.1 hbfilter.2 hbid
    rw [hr]
    simp [this]

theorem retention_safety_witness :
    (absFav.read = true ∧ absFav.favorite = true ∧ absFav.date = 0 ∧
        (10 : Int) < 100 - absFav.date) ∧
      absFav ∈ (sampleCollection.cleanOldArticles feedF 10 100).catalog feedF ∧
      absFav ∈ (sampleCollection.cleanAllOldArticles 10 100).catalog feedF :=
  ⟨by decide,
   (retention_safety sampleCollection feedF feedF 10 100 absFav (by decide) (by decide)
     (Or.inr rfl)).1,
   (retention_safety sampleCollection feedF feedF 10 100 absFav (by decide) (by decide)
     (Or.inr rfl)).2.1⟩

theorem favinv_add (c : Collection) (id : String) (hinv : FavInv c)
    (hex : ∃ a ∈ allAbstracts c, a.id = id) : FavInv (c.addToFavorites id) := by
  intro j
  have hfav : (c.addToFavorites id).favorites =
      if c.favorites.contains id then c.favorites else id :: c.favorites := rfl
  have hall : allAbstracts (c.addToFavorites id) =
      (allAbstracts c).map (fun a => if a.id == id then { a with favorite := true } else a) :=
    allAbstracts_setFavorite c id true
  rw [hfav, hall, mem_insertIfAbsent]
  constructor
  · rintro (h | hj)
    · obtain ⟨a, ha, haid⟩ := hex
      refine ⟨if a.id == id then { a with favorite := true } else a,
        List.mem_map_of_mem (fun x => if x.id == id then { x with favorite := true } else x)
          ha, ?_⟩
      rw [if_pos (by simp [haid])]
      exact ⟨haid.trans h.symm, rfl⟩
    · obtain ⟨a, ha, haid, hafav⟩ := (hinv j).mp hj
      refine ⟨if a.id == id then { a with favorite := true } else a,
        List.mem_map_of_mem (fun x => if x.id == id then { x with favorite := true } else x)
          ha, ?_⟩
      cases hb : (a.id == id) with
      | true => rw [if_pos rfl]; exact ⟨haid, rfl⟩
      | false => rw [if_neg (by simp)]; exact ⟨haid, hafav⟩
  · rintro ⟨x, hx, hxid, hxfav⟩
    obtain ⟨a, ha, rfl⟩ := List.mem_map.mp hx
    cases hb : (a.id == id) with
    | true =>
      left
      rw [if_pos hb] at hxid
      have : a.id = id := by simpa using hb
      rw [← hxid]
      exact this
    | false =>
      right
      rw [if_neg (by simp [hb])] at hxid hxfav
      exact (hinv j).mpr ⟨a, ha, hxid, hxfav⟩

theorem favinv_remove (c : Collection) (id : String) (hinv : FavInv c) :
    FavInv (c.removeFromFavorites id) := by
  intro j
  have hfav : (c.removeFromFavorites id).favorites =
      c.favorites.filter (fun j => j != id) := rfl
  have hall : allAbstracts (c.removeFromFavorites id) =
      (allAbstracts c).map (fun a => if a.id == id then { a with favorite := false } else a) :=
    allAbstracts_setFavorite c id false
  rw [hfav, hall]
  constructor
  · intro hj
    have hj' := List.mem_filter.mp hj
    have hne : j ≠ id := by simpa using hj'.2
    obtain ⟨a, ha, haid, hafav⟩ := (hinv j).mp hj'.1
    refine ⟨if a.id == id then { a with favorite := false } else a,
      List.mem_map_of_mem (fun x => if x.id == id then { x with favorite := false } else x)
        ha, ?_⟩
    rw [if_neg (by simp [haid]; exact hne)]
    exact ⟨haid, hafav⟩
  · rintro ⟨x, hx, hxid, hxfav⟩
    obtain ⟨a, ha, rfl⟩ := List.mem_map.mp hx
    cases hb : (a.id == id) with
    | true =>
      rw [if_pos hb] at hxfav
      cases hxfav
    | false =>
      rw [if_neg (by simp [hb])] at hxid hxfav
      refine List.mem_filter.mpr ⟨(hinv j).mpr ⟨a, ha, hxid, hxfav⟩, ?_⟩
      have : a.id ≠ id := by simpa using hb
      simp [← hxid, this]

theorem catalog_of_mem_nodup (c : Collection) (hkeys : feedKeysNodup c)
    (p : String × List Abstract) (hp : p ∈ c.feeds) : c.catalog p.1 = p.2 := by
  unfold Collection.catalog catalogL
  rw [find?_key_of_nodup c.feeds hkeys p hp]

theorem favinv_delFeed (c : Collection) (url : String) (hinv : FavInv c)
    (hown : OwnedOnce c) (hkeys : feedKeysNodup c) : FavInv (c.delFeed url) := by
  intro j
  have hfav : (c.delFeed url).favorites =
      c.favorites.filter
        (fun j => !(((c.catalog url).map (fun a => a.id)).contains j)) := rfl
  have hfeeds : (c.delFeed url).feeds = c.feeds.filter (fun p => p.1 != url) := rfl
  rw [hfav]
  constructor
  · intro hj
    have hj' := List.mem_filter.mp hj
    have hnotin : j ∉ (c.catalog url).map (fun a => a.id) := by
      intro hin
      rw [(by simp [hin] : (!(((c.catalog url).map (fun a => a.id)).contains j)) = false)]
        at hj'
      exact Bool.noConfusion hj'.2
    obtain ⟨a, ha, haid, hafav⟩ := (hinv j).mp hj'.1
    obtain ⟨p, hp, hap⟩ := mem_allAbstracts.mp ha
    have hpne : p.1 ≠ url := by
      intro h
      apply hnotin
      have : c.catalog url = p.2 := by
        rw [← h]
        exact catalog_of_mem_nodup c hkeys p hp
      rw [this, ← haid]
      exact List.mem_map_of_mem (fun a => a.id) hap
    refine ⟨a, mem_allAbstracts.mpr ⟨p, ?_, hap⟩, haid, hafav⟩
    rw [hfeeds]
    exact List.mem_filter.mpr ⟨hp, by simp [hpne]⟩
  · rintro ⟨a, ha, haid, hafav⟩
    obtain ⟨p, hpf, hap⟩ := mem_allAbstracts.mp ha
    rw [hfeeds] at hpf
    have hpf' := List.mem_filter.mp hpf
    have hpne : p.1 ≠ url := by simpa using hpf'.2
    have hjmem : j ∈ c.favorites :=
      (hinv j).mpr ⟨a, mem_allAbstracts.mpr ⟨p, hpf'.1, hap⟩, haid, hafav⟩
    have hnotin : j ∉ (c.catalog url).map (fun a => a.id) := by
      intro hin
      obtain ⟨b, hbmem, hbid⟩ := List.mem_map.mp hin
      obtain ⟨q, hfq, hbq⟩ := mem_catalogL.mp hbmem
      have hqmem : q ∈ c.feeds := List.mem_of_find?_eq_some hfq
      have hq1 : q.1 = url := by simpa using List.find?_some hfq
      obtain ⟨rfl, -⟩ := hown q hqmem p hpf'.1 b hbq a hap (by rw [hbid, haid])
      exact hpne hq1
    exact List.mem_filter.mpr ⟨hjmem, by simp [hnotin]⟩

theorem favinv_cleanOld (c : Collection) (url : String) (maxAgeMs now : Int)
    (hinv : FavInv c) : FavInv (c.cleanOldArticles url maxAgeMs now) := by
  intro j
  have hfav : (c.cleanOldArticles url maxAgeMs now).favorites = c.favorites := rfl
  have hfeeds : (c.cleanOldArticles url maxAgeMs now).feeds = c.feeds.map (fun p =>
      (p.1, if p.1 == url then p.2.filter (fun a => !(expired maxAgeMs now a)) else p.2)) := rfl
  rw [hfav]
  constructor
  · intro hj
    obtain ⟨a, ha, haid, hafav⟩ := (hinv j).mp hj
    obtain ⟨p, hp, hap⟩ := mem_allAbstracts.mp ha
    have hexp : (!(expired maxAgeMs now a)) = true := by simp [expired, hafav]
    refine ⟨a, mem_allAbstracts.mpr
      ⟨(p.1, if p.1 == url then p.2.filter (fun a => !(expired maxAgeMs now a)) else p.2),
        ?_, ?_⟩, haid, hafav⟩
    · rw [hfeeds]
      exact List.mem_map_of_mem _ hp
    · show a ∈ (if p.1 == url then p.2.filter (fun a => !(expired maxAgeMs now a)) else p.2)
      cases hb : (p.1 == url) with
      | true => rw [if_pos rfl]; exact List.mem_filter.mpr ⟨hap, hexp⟩
      | false => rw [if_neg (by simp)]; exact hap
  · rintro ⟨a, ha, haid, hafav⟩
    obtain ⟨p', hp', hap'⟩ := mem_allAbstracts.mp ha
    rw [hfeeds] at hp'
    obtain ⟨p, hp, rfl⟩ := List.mem_map.mp hp'
    have hap : a ∈ p.2 := by
      revert hap'
      show a ∈ (if p.1 == url then p.2.filter (fun a => !(expired maxAgeMs now a)) else p.2) →
        a ∈ p.2
      cases hb : (p.1 == url) with
      | true => rw [if_pos rfl]; exact List.mem_of_mem_filter
      | false => rw [if_neg (by simp)]; exact fun h => h
    exact (hinv j).mpr ⟨a, mem_allAbstracts.mpr ⟨p, hp, hap⟩, haid, hafav⟩

theorem favinv_cleanAll (c : Collection) (maxAgeMs now : Int)
    (hinv : FavInv c) : FavInv (c.cleanAllOldArticles maxAgeMs now) := by
  intro j
  have hfav : (c.cleanAllOldArticles maxAgeMs now).favorites = c.favorites := rfl
  have hfeeds : (c.cleanAllOldArticles maxAgeMs now).feeds = c.feeds.map (fun p =>
      (p.1, p.2.filter (fun a => !(expired maxAgeMs now a)))) := rfl
  rw [hfav]
  constructor
  · intro hj
    obtain ⟨a, ha, haid, hafav⟩ := (hinv j).mp hj
    obtain ⟨p, hp, hap⟩ := mem_allAbstracts.mp ha
    have hexp : (!(expired maxAgeMs now a)) = true := by simp [expired, hafav]
    refine ⟨a, mem_allAbstracts.mpr
      ⟨(p.1, p.2.filter (fun a => !(expired maxAgeMs now a))), ?_,
        List.mem_filter.mpr ⟨hap, hexp⟩⟩, haid, hafav⟩
    rw [hfeeds]
    exact List.mem_map_of_mem _ hp
  · rintro ⟨a, ha, haid, hafav⟩
    obtain ⟨p', hp', hap'⟩ := mem_allAbstracts.mp ha
    rw [hfeeds] at hp'
    obtain ⟨p, hp, rfl⟩ := List.mem_map.mp hp'
    exact (hinv j).mpr
      ⟨a, mem_allAbstracts.mpr ⟨p, hp, List.mem_of_mem_filter hap'⟩, haid, hafav⟩

theorem sampleFavInv : FavInv sampleCollection := by
  intro j
  have hall : allAbstracts sampleCollection = [absA, absB, absOld, absFav] := rfl
  have hfav : sampleCollection.favorites = ["d"] := rfl
  rw [hall, hfav]
  constructor
  · intro hj
    have hjd : j = "d" := by simpa using hj
    exact ⟨absFav, by simp, by rw [hjd]; rfl, rfl⟩
  · rintro ⟨a, ha, haid, hafav⟩
    simp only [List.mem_cons, List.not_mem_nil, or_false] at ha
    rcases ha with rfl | rfl | rfl | rfl
    · exact absurd hafav (by decide)
    · exact absurd hafav (by decide)
    · exact absurd hafav (by decide)
    · rw [← haid]
      simp [absFav]

/-- C6: after addToFavorites, removeFromFavorites and the deletion
operations (delFeed, cleanOldArticles, cleanAllOldArticles) the favorites
invariant holds: an id is a member of the FavoritesList exactly when the
Abstract carrying it has favorite = true; and deleting a feed removes the
favorites referencing its Abstracts, so no orphaned id remains. -/
theorem favorites_invariant (c : Collection) (id url : String) (maxAgeMs now : Int)
    (hinv : FavInv c) (hown : OwnedOnce c) (hkeys : feedKeysNodup c) :
    ((∃ a ∈ allAbstracts c, a.id = id) → FavInv (c.addToFavorites id)) ∧
      FavInv (c.removeFromFavorites id) ∧
      FavInv (c.delFeed url) ∧
      (∀ b ∈ c.catalog url, b.id ∉ (c.delFeed url).favorites) ∧
      FavInv (c.cleanOldArticles url maxAgeMs now) ∧
      FavInv (c.cleanAllOldArticles maxAgeMs now) := by
  refine ⟨fun hex => favinv_add c id hinv hex, favinv_remove c id hinv,
    favinv_delFeed c url hinv hown hkeys, ?_, favinv_cleanOld c url maxAgeMs now hinv,
    favinv_cleanAll c maxAgeMs now hinv⟩
  intro b hb hmem
  have hfav : (c.delFeed url).favorites =
      c.favorites.filter
        (fun j => !(((c.catalog url).map (fun a => a.id)).contains j)) := rfl
  rw [hfav] at hmem
  have h2 := (List.mem_filter.mp hmem).2
  have : b.id ∈ (c.catalog url).map (fun a => a.id) := List.mem_map_of_mem (fun a => a.id) hb
  rw [(by simp [this] :
    (!(((c.catalog url).map (fun a => a.id)).contains b.id)) = false)] at h2
  exact Bool.noConfusion h2

theorem favorites_invariant_witness :
    FavInv (sampleCollection.addToFavorites "a") ∧
      FavInv (sampleCollection.delFeed feedF) ∧
      (∀ b ∈ sampleCollection.catalog feedF, b.id ∉ (sampleCollection.delFeed feedF).favorites) :=
  ⟨(favorites_invariant sampleCollection "a" feedF 10 100 sampleFavInv (by decide)
      (by decide)).1 ⟨absA, by decide, rfl⟩,
   (favorites_invariant sampleCollection "a" feedF 10 100 sampleFavInv (by decide)
      (by decide)).2.2.1,
   (favorites_invariant sampleCollection "a" feedF 10 100 sampleFavInv (by decide)
      (by decide)).2.2.2.1⟩

end Rss
